import Mathlib

/-! Verification of the spam/ham notebook pipeline: CSV loading with label
mapping, the train/test split, tokenizer encoding with truncation and
padding, the PyTorch dataset adapter, and the inference function. -/

namespace SpamHam

/-! ## Data loading (notebook cell 3)

The notebook reads the CSV into a dataframe, maps the Category column
through the dict mapping "ham" to 0 and "spam" to 1, and splits the rows
into train and test partitions with sklearn. -/

/-- A parsed two-dimensional tabular file, as read by pd.read_csv: a
header of column names and a list of rows of string cells. -/
structure CsvFile where
  header : List String
  rows : List (List String)
deriving DecidableEq

/-- Accessing an absent column of a dataframe raises KeyError in pandas;
this is the only loading-stage error the notebook can raise. -/
inductive LoadError where
  | keyError : String → LoadError
deriving DecidableEq

/-- The hardcoded label dict of the loader: "ham" to 0, "spam" to 1. -/
def label_map : List (String × Nat) := [("ham", 0), ("spam", 1)]

/-- One cell of the Series.map call on the Category column: a value that
is a key of the dict maps to its value; any other value becomes NaN
(modelled as none). pandas raises no error for an unmapped value. -/
def mapCategory (c : String) : Option Nat :=
  (label_map.find? (fun p => p.1 == c)).map (fun p => p.2)

/-- Column access df[name]: the list of that column's cells, or a
KeyError when the column name is absent from the header. -/
def column (f : CsvFile) (name : String) : Except LoadError (List String) :=
  match f.header.indexOf? name with
  | some i => Except.ok (f.rows.map (fun r => r.getD i ""))
  | none => Except.error (LoadError.keyError name)

/-- One row of the dataframe after the map line: the raw category and
message cells together with the mapped numeric label; none models the
NaN that pandas produces for a category missing from the dict. -/
structure Row where
  category : String
  message : String
  label : Option Nat
deriving DecidableEq

/-- The dataframe after the Category map line: each row keeps its cells
and carries the mapped label. Only an absent column is an error; an
unmapped category value is not. -/
def labelledRows (f : CsvFile) : Except LoadError (List Row) := do
  let cats ← column f "Category"
  let msgs ← column f "Message"
  pure ((cats.zip msgs).map (fun p => { category := p.1, message := p.2, label := mapCategory p.1 }))

/-- A linear congruential step, used to derive a deterministic
pseudo-random value from the seed. -/
def lcg (x : Nat) : Nat := (1103515245 * x + 12345) % 2147483648

/-- Modelled from the spec: sklearn's train_test_split (external to the
repository) draws a deterministic pseudo-random permutation of the row
indices from random_state; we model the drawn permutation as a rotation
of the index range by an LCG value of the seed. -/
def shuffledIndices (seed n : Nat) : List Nat :=
  (List.range n).rotate (lcg seed)

/-- Modelled from the spec: sklearn takes the ceiling of n multiplied by
the float test_size as the test-partition size; the fraction is passed
here as numerator over denominator (0.2 is 1 over 5). -/
def testCount (num den n : Nat) : Nat := (n * num + (den - 1)) / den

/-- Select the rows at the given indices, keeping each original row
index alongside the row. -/
def pickRows (rows : List Row) (is : List Nat) : List (Nat × Row) :=
  is.filterMap (fun i => (rows.get? i).map (fun r => (i, r)))

/-- Modelled from the spec: train_test_split with test_size and
random_state shuffles the index range deterministically from the seed,
takes the first testCount shuffled indices as the test partition and the
remaining indices as the train partition. -/
def trainTestSplit (rows : List Row) (num den seed : Nat) : List (Nat × Row) × List (Nat × Row) :=
  let sh := shuffledIndices seed rows.length
  let k := testCount num den rows.length
  (pickRows rows (sh.drop k), pickRows rows (sh.take k))

/-- The whole loading stage of cell 3: read the columns, map the
Category labels, split into train and test partitions. -/
def load (f : CsvFile) (num den seed : Nat) :
    Except LoadError (List (Nat × Row) × List (Nat × Row)) := do
  let rows ← labelledRows f
  pure (trainTestSplit rows num den seed)

/-- Modelled from the spec: the ambient global RNG state of the process.
train_test_split receives an explicit random_state built from the seed,
so the split neither reads nor advances this global state; load is
threaded through the state to express that. -/
def loadWithState (f : CsvFile) (num den seed : Nat) (g : Nat) :
    Except LoadError (List (Nat × Row) × List (Nat × Row)) × Nat :=
  (load f num den seed, g)

/-! ## Tokenizer encoding (notebook cell 5 and the predict call)

The notebook calls the tokenizer with truncation, padding set to True
(pad to the longest sequence of the batch) and max_length 512, both on
the training/test batches and on the single message inside predict. -/

/-- An encoding of one message: the parallel token-id and
attention-mask sequences returned by the tokenizer call. -/
structure Encoding where
  token_ids : List Nat
  attention_mask : List Nat
deriving DecidableEq

/-- The truncation step with max_length L: keep at most the first L
tokens of the sequence. -/
def truncateTo (L : Nat) (ts : List Nat) : List Nat := ts.take L

/-- The padding step: extend a truncated token sequence to the target
length with the pad token id; the attention mask is 1 on every real
token position and 0 on every pad position. -/
def padTo (padId len : Nat) (ts : List Nat) : Encoding :=
  ⟨ts ++ List.replicate (len - ts.length) padId,
   List.replicate ts.length 1 ++ List.replicate (len - ts.length) 0⟩

/-- The length that padding set to True pads to: the longest truncated
token length appearing in the batch. -/
def batchMaxLen (tok : String → List Nat) (L : Nat) (msgs : List String) : Nat :=
  (msgs.map (fun m => (truncateTo L (tok m)).length)).foldr max 0

/-- The batch tokenizer call of cell 5 (truncation on, padding True,
max_length L): every message is tokenized by the external tokenizer tok,
truncated to L, and padded to the longest truncated length of the batch. -/
def batchEncode (tok : String → List Nat) (padId L : Nat) (msgs : List String) : List Encoding :=
  msgs.map (fun m => padTo padId (batchMaxLen tok L msgs) (truncateTo L (tok m)))

/-- The tokenizer call inside predict, on a single message with the same
flags: padding to the longest sequence of a one-element batch inserts no
pad at all. -/
def encodeSingle (tok : String → List Nat) (padId L : Nat) (m : String) : Encoding :=
  padTo padId (truncateTo L (tok m)).length (truncateTo L (tok m))

/-- Modelled from the spec: the external pre-trained subword tokenizer
(bert-base-uncased) is not part of this repository; the spec only needs
a deterministic map from text to integer token ids, modelled here as the
sequence of character codes. -/
def modelTok (s : String) : List Nat := s.toList.map Char.toNat

/-! ## The PyTorch dataset adapter (notebook cell 7) -/

/-- EmailDataset: stores the batch encodings (a dict from key to the
per-example value lists) and the label list, exactly the two fields set
by the constructor. -/
structure EmailDataset (α : Type) where
  encodings : List (String × List (List Nat))
  labels : List α
deriving DecidableEq

/-- Resolution of a Python list index of a list of length n: a
non-negative index must be below n; a negative index i counts from the
end and must satisfy -n ≤ i; anything else is an IndexError (none). -/
def pyIndex (n : Nat) (i : Int) : Option Nat :=
  if 0 ≤ i then (if i < (n : Int) then some i.toNat else none)
  else (if -(n : Int) ≤ i then some (n - (-i).toNat) else none)

/-- Python list subscription xs[i], with negative-index wrap-around and
IndexError modelled as none. -/
def pyGet {α : Type} (xs : List α) (i : Int) : Option α :=
  match pyIndex xs.length i with
  | some j => xs.get? j
  | none => none

/-- The dict comprehension of getitem: subscript every per-key value
list at the index; the first IndexError aborts the whole item. -/
def collectFields (enc : List (String × List (List Nat))) (i : Int) :
    Option (List (String × List Nat)) :=
  match enc with
  | [] => some []
  | (k, v) :: rest =>
    match pyGet v i, collectFields rest i with
    | some x, some tail => some ((k, x) :: tail)
    | _, _ => none

/-- The item returned by getitem: one value per encoding key, plus the
labels entry. -/
structure Item (α : Type) where
  fields : List (String × List Nat)
  labels_value : α
deriving DecidableEq

/-- EmailDataset getitem: subscript every encoding list and the label
list at idx; none models the IndexError Python raises when any of those
subscriptions is out of range. -/
def EmailDataset.getitem {α : Type} (d : EmailDataset α) (i : Int) : Option (Item α) :=
  match collectFields d.encodings i, pyGet d.labels i with
  | some fs, some lab => some ⟨fs, lab⟩
  | _, _ => none

/-- EmailDataset len: the length of the label list. -/
def EmailDataset.size {α : Type} (d : EmailDataset α) : Nat := d.labels.length

/-- The construction invariant of the notebook: every per-key value list
of the encodings has exactly one entry per example, i.e. the same length
as the label list. -/
def EmailDataset.aligned {α : Type} (d : EmailDataset α) : Prop :=
  ∀ kv ∈ d.encodings, (kv.2).length = d.labels.length

/-! ## Inference (notebook cell 15) -/

/-- Modelled from the spec: torch.argmax on the length-2 logit vector
lives in the external torch library; it returns the index of the first
maximal entry, so an exact tie yields index 0. -/
def torchArgmax2 (s0 s1 : Int) : Nat := if s0 < s1 then 1 else 0

/-- predict(message): encode the message on the single-message path, run
the trained model (external; it enters as the function from the encoding
to the two class logits), take the argmax of the logits, and map class
index 1 to "spam" and class index 0 to "ham". -/
def predict (tok : String → List Nat) (padId : Nat) (model : Encoding → Int × Int)
    (message : String) : String :=
  let inputs := encodeSingle tok padId 512 message
  let logits := model inputs
  let pred := torchArgmax2 logits.1 logits.2
  if pred = 1 then "spam" else "ham"

/-- Decidable equality for Except values, so that concrete loading
outcomes can be checked by evaluation. -/
instance {ε α : Type} [DecidableEq ε] [DecidableEq α] : DecidableEq (Except ε α) := fun a b =>
  match a, b with
  | Except.error e₁, Except.error e₂ =>
    if h : e₁ = e₂ then isTrue (by rw [h])
    else isFalse (by intro hc; cases hc; exact h rfl)
  | Except.error _, Except.ok _ => isFalse (by intro hc; cases hc)
  | Except.ok _, Except.error _ => isFalse (by intro hc; cases hc)
  | Except.ok a₁, Except.ok a₂ =>
    if h : a₁ = a₂ then isTrue (by rw [h])
    else isFalse (by intro hc; cases hc; exact h rfl)

/-! ## Concrete inputs used to exercise the definitions -/

/-- A file holding the two example rows of the spec. -/
def fileExamples : CsvFile :=
  ⟨["Category", "Message"],
   [["spam", "Free entry in 2 a wkly comp to win FA Cup final tkts"],
    ["ham", "Ok lar... Joking wif u oni..."]]⟩

/-- The labelled rows the loader derives from fileExamples. -/
def exampleRows : List Row :=
  [⟨"spam", "Free entry in 2 a wkly comp to win FA Cup final tkts", some 1⟩,
   ⟨"ham", "Ok lar... Joking wif u oni...", some 0⟩]

/-- A one-row file whose category cell "Spam" is not a key of the label
dict. -/
def fileUnmapped : CsvFile := ⟨["Category", "Message"], [["Spam", "x"]]⟩

/-- A file whose header lacks the Category column. -/
def fileNoCategory : CsvFile := ⟨["Categry", "Message"], [["ham", "x"]]⟩

/-- A well-formed two-row file. -/
def fileTwo : CsvFile := ⟨["Category", "Message"], [["ham", "a"], ["spam", "b"]]⟩

/-- A one-example dataset with the three encoding keys the tokenizer
returns. -/
def dsOne : EmailDataset Nat :=
  ⟨[("input_ids", [[101, 7592, 102]]), ("token_type_ids", [[0, 0, 0]]),
    ("attention_mask", [[1, 1, 1]])], [0]⟩

/-! ## Helper lemmas -/

theorem le_foldr_max {x : Nat} {xs : List Nat} (h : x ∈ xs) : x ≤ xs.foldr max 0 := by
  induction xs with
  | nil => cases h
  | cons a t ih =>
    simp only [List.foldr_cons]
    rcases List.mem_cons.mp h with h1 | h2
    · exact h1 ▸ le_max_left _ _
    · exact le_trans (ih h2) (le_max_right _ _)

theorem foldr_max_le {xs : List Nat} {L : Nat} (h : ∀ x ∈ xs, x ≤ L) : xs.foldr max 0 ≤ L := by
  induction xs with
  | nil => exact Nat.zero_le L
  | cons a t ih =>
    simp only [List.foldr_cons]
    exact max_le (h a (by simp)) (ih fun x hx => h x (by simp [hx]))

theorem get?_replicate_of_lt {α : Type} (a : α) {n j : Nat} (h : j < n) :
    (List.replicate n a).get? j = some a := by
  induction n generalizing j with
  | zero => omega
  | succ k ih =>
    cases j with
    | zero => rfl
    | succ j2 => simpa [List.replicate_succ] using ih (by omega)

theorem pyIndex_eq_none_iff {n : Nat} {i : Int} :
    pyIndex n i = none ↔ (i < -(n : Int) ∨ (n : Int) ≤ i) := by
  unfold pyIndex
  split_ifs with h1 h2 h3 <;> simp <;> omega

theorem pyIndex_lt {n : Nat} {i : Int} {j : Nat} (h : pyIndex n i = some j) : j < n := by
  unfold pyIndex at h
  split_ifs at h with h1 h2 h3 <;> injection h with h4 <;> omega

theorem pyGet_eq_none_iff {α : Type} {xs : List α} {i : Int} :
    pyGet xs i = none ↔ (i < -(xs.length : Int) ∨ (xs.length : Int) ≤ i) := by
  unfold pyGet
  cases hp : pyIndex xs.length i with
  | none =>
    dsimp only
    simp only [true_iff]
    exact pyIndex_eq_none_iff.mp hp
  | some j =>
    have hj : j < xs.length := pyIndex_lt hp
    dsimp only
    rw [List.get?_eq_get hj]
    constructor
    · intro hfalse; exact absurd hfalse (by simp)
    · intro hr
      rw [pyIndex_eq_none_iff.mpr hr] at hp
      cases hp

theorem pyGet_natCast {α : Type} {xs : List α} {j : Nat} (h : j < xs.length) :
    pyGet xs (j : Int) = xs.get? j := by
  unfold pyGet pyIndex
  have h0 : (0 : Int) ≤ (j : Int) := by omega
  have h1 : (j : Int) < (xs.length : Int) := by omega
  rw [if_pos h0, if_pos h1]
  simp

theorem pyIndex_neg_wrap {n : Nat} {i : Int} (h1 : -(n : Int) ≤ i) (h2 : i < 0) :
    pyIndex n i = pyIndex n ((n : Int) + i) := by
  unfold pyIndex
  have h3 : ¬ (0 ≤ i) := by omega
  have h4 : (0 : Int) ≤ (n : Int) + i := by omega
  have h5 : (n : Int) + i < (n : Int) := by omega
  rw [if_neg h3, if_pos h1, if_pos h4, if_pos h5]
  congr 1
  omega

theorem pyGet_neg_wrap {α : Type} {xs : List α} {i : Int} (h1 : -(xs.length : Int) ≤ i)
    (h2 : i < 0) : pyGet xs i = pyGet xs ((xs.length : Int) + i) := by
  unfold pyGet
  rw [pyIndex_neg_wrap h1 h2]

theorem collectFields_neg_wrap {enc : List (String × List (List Nat))} {n : Nat}
    (he : ∀ kv ∈ enc, (kv.2).length = n) {i : Int} (h1 : -(n : Int) ≤ i) (h2 : i < 0) :
    collectFields enc i = collectFields enc ((n : Int) + i) := by
  induction enc with
  | nil => rfl
  | cons kv rest ih =>
    obtain ⟨k, v⟩ := kv
    have hkv : v.length = n := he (k, v) (by simp)
    have hv : pyGet v i = pyGet v ((n : Int) + i) := by
      rw [pyGet_neg_wrap (by rw [hkv]; exact h1) h2, hkv]
    simp only [collectFields]
    rw [hv, ih (fun x hx => he x (by simp [hx]))]

theorem collectFields_isSome {enc : List (String × List (List Nat))} {n : Nat}
    (he : ∀ kv ∈ enc, (kv.2).length = n) {i : Int} (h1 : -(n : Int) ≤ i) (h2 : i < (n : Int)) :
    ∃ fs, collectFields enc i = some fs ∧ fs.length = enc.length := by
  induction enc with
  | nil => exact ⟨[], rfl, rfl⟩
  | cons kv rest ih =>
    obtain ⟨k, v⟩ := kv
    have hkv : v.length = n := he (k, v) (by simp)
    have hne : pyGet v i ≠ none := by
      rw [Ne, pyGet_eq_none_iff, hkv]
      omega
    obtain ⟨x, hx⟩ : ∃ x, pyGet v i = some x := by
      cases hg : pyGet v i with
      | none => exact absurd hg hne
      | some x => exact ⟨x, rfl⟩
    obtain ⟨fs, hfs, hlen⟩ := ih (fun kv2 h => he kv2 (by simp [h]))
    refine ⟨(k, x) :: fs, ?_, by simp [hlen]⟩
    simp only [collectFields]
    rw [hx, hfs]

theorem getitem_eq_none_iff {α : Type} {d : EmailDataset α} (hA : d.aligned) {i : Int} :
    d.getitem i = none ↔ (i < -(d.size : Int) ∨ (d.size : Int) ≤ i) := by
  unfold EmailDataset.getitem
  constructor
  · intro hnone
    by_contra hout
    push_neg at hout
    obtain ⟨hge, hlt⟩ := hout
    obtain ⟨fs, hfs, -⟩ := collectFields_isSome hA (by exact_mod_cast hge) (by exact_mod_cast hlt)
    have hlab : pyGet d.labels i ≠ none := by
      rw [Ne, pyGet_eq_none_iff]
      simp only [EmailDataset.size] at hge hlt
      omega
    obtain ⟨lab, hl⟩ : ∃ lab, pyGet d.labels i = some lab := by
      cases hg : pyGet d.labels i with
      | none => exact absurd hg hlab
      | some lab => exact ⟨lab, rfl⟩
    rw [hfs, hl] at hnone
    cases hnone
  · intro hout
    have hl : pyGet d.labels i = none := by
      rw [pyGet_eq_none_iff]
      simp only [EmailDataset.size] at hout
      omega
    rw [hl]
    cases collectFields d.encodings i <;> rfl

theorem getitem_pos_spec {α : Type} {d : EmailDataset α} (hA : d.aligned) {j : Nat}
    (hj : j < d.size) :
    ∃ it, d.getitem (j : Int) = some it ∧ it.fields.length = d.encodings.length ∧
      d.labels.get? j = some it.labels_value := by
  have hjn : j < d.labels.length := hj
  obtain ⟨fs, hfs, hlen⟩ :=
    collectFields_isSome (n := d.labels.length) hA (i := (j : Int)) (by omega) (by omega)
  obtain ⟨lab, hl⟩ : ∃ lab, d.labels.get? j = some lab := by
    cases hg : d.labels.get? j with
    | none => exact absurd (List.get?_eq_none.mp hg) (by omega)
    | some lab => exact ⟨lab, rfl⟩
  refine ⟨⟨fs, lab⟩, ?_, hlen, hl⟩
  unfold EmailDataset.getitem
  rw [hfs, pyGet_natCast hjn, hl]

theorem column_length {f : CsvFile} {name : String} {l : List String}
    (h : column f name = Except.ok l) : l.length = f.rows.length := by
  unfold column at h
  cases hi : f.header.indexOf? name with
  | some i =>
    rw [hi] at h
    cases h
    simp
  | none =>
    rw [hi] at h
    cases h

theorem labelledRows_spec {f : CsvFile} {rows : List Row}
    (h : labelledRows f = Except.ok rows) :
    ∃ cats msgs, column f "Category" = Except.ok cats ∧ column f "Message" = Except.ok msgs ∧
      rows = (cats.zip msgs).map
        (fun p => { category := p.1, message := p.2, label := mapCategory p.1 }) := by
  unfold labelledRows at h
  cases hc : column f "Category" with
  | error e =>
    rw [hc] at h
    cases h
  | ok cats =>
    rw [hc] at h
    cases hm : column f "Message" with
    | error e =>
      rw [hm] at h
      cases h
    | ok msgs =>
      rw [hm] at h
      cases h
      exact ⟨cats, msgs, rfl, rfl, rfl⟩

theorem labelledRows_length {f : CsvFile} {rows : List Row}
    (h : labelledRows f = Except.ok rows) : rows.length = f.rows.length := by
  obtain ⟨cats, msgs, hc, hm, rfl⟩ := labelledRows_spec h
  have h1 := column_length hc
  have h2 := column_length hm
  simp [List.length_zip, h1, h2]

theorem labelledRows_label {f : CsvFile} {rows : List Row}
    (h : labelledRows f = Except.ok rows) :
    ∀ r ∈ rows, r.label = mapCategory r.category := by
  obtain ⟨cats, msgs, -, -, rfl⟩ := labelledRows_spec h
  intro r hr
  obtain ⟨p, -, rfl⟩ := List.mem_map.mp hr
  rfl

theorem pickRows_map_fst {rows : List Row} {is : List Nat}
    (h : ∀ i ∈ is, i < rows.length) :
    (pickRows rows is).map Prod.fst = is := by
  induction is with
  | nil => rfl
  | cons a t ih =>
    have ha : a < rows.length := h a (by simp)
    cases hg : rows.get? a with
    | none => exact absurd (List.get?_eq_none.mp hg) (by omega)
    | some r =>
      simp only [pickRows, List.filterMap_cons, hg, Option.map_some']
      simp only [List.map_cons]
      exact congrArg (List.cons a) (ih fun i hi => h i (by simp [hi]))

/-! ## Claim theorems -/

/-- C1: predict returns the label of the class index whose logit is
strictly greater; on an exactly equal pair of logits it returns "ham"
(class index 0); equivalently, predict returns "spam" exactly when the
argmax over the two scores, with ties to index 0, is 1. -/
theorem predict_decision_rule (tok : String → List Nat) (padId : Nat)
    (model : Encoding → Int × Int) (m : String) :
    (predict tok padId model m = "spam" ↔
      (model (encodeSingle tok padId 512 m)).1 < (model (encodeSingle tok padId 512 m)).2) ∧
    (predict tok padId model m = "ham" ↔
      (model (encodeSingle tok padId 512 m)).2 ≤ (model (encodeSingle tok padId 512 m)).1) ∧
    predict tok padId model m =
      (if torchArgmax2 (model (encodeSingle tok padId 512 m)).1
          (model (encodeSingle tok padId 512 m)).2 = 1 then "spam" else "ham") := by
  by_cases h : (model (encodeSingle tok padId 512 m)).1 < (model (encodeSingle tok padId 512 m)).2
  · simp [predict, torchArgmax2, h]
  · simp [predict, torchArgmax2, h]
    omega

/-- C7: for a fixed seed and test fraction, the partitions produced by
load on the same file are the same whatever the ambient global RNG state
is at each call: partition membership is deterministic because the split
is keyed only by the explicit random_state seed. -/
theorem load_state_independent (f : CsvFile) (num den seed g₁ g₂ : Nat) :
    (loadWithState f num den seed g₁).1 = (loadWithState f num den seed g₂).1 := rfl

/-- C4 counterexample: a category value outside the label dict does not
abort loading with an error; load succeeds and the offending row sits in
the test partition carrying a NaN label. -/
theorem unmapped_category_no_error :
    mapCategory "Spam" = none ∧
    load fileUnmapped 1 5 42 = Except.ok ([], [(0, ⟨"Spam", "x", none⟩)]) :=
  ⟨rfl, by decide⟩

/-- C4 (amended): an absent Category column makes load fail with a
KeyError for that column name, while a row whose category value is not a
key of the label dict causes no error: every successfully labelled row
carries exactly the dict image of its category (NaN for unmapped ones)
and stays in the dataframe, whose length is the input row count. -/
theorem load_column_and_label_behaviour (f : CsvFile) (num den seed : Nat) :
    ("Category" ∉ f.header → load f num den seed = Except.error (LoadError.keyError "Category")) ∧
    (∀ rows, labelledRows f = Except.ok rows →
      rows.length = f.rows.length ∧ ∀ r ∈ rows, r.label = mapCategory r.category) := by
  constructor
  · intro hmem
    have hidx : f.header.indexOf? "Category" = none := by
      rw [List.indexOf?_eq_none_iff]
      intro x hx
      simp only [beq_iff_eq]
      intro hxe
      exact hmem (hxe ▸ hx)
    have hcol : column f "Category" = Except.error (LoadError.keyError "Category") := by
      unfold column
      rw [hidx]
    have hlr : labelledRows f = Except.error (LoadError.keyError "Category") := by
      unfold labelledRows
      rw [hcol]
      rfl
    unfold load
    rw [hlr]
    rfl
  · intro rows h
    exact ⟨labelledRows_length h, labelledRows_label h⟩

/-- C4 witness: on a concrete file without a Category column, load fails
with the KeyError. -/
theorem load_column_witness :
    "Category" ∉ fileNoCategory.header ∧
    load fileNoCategory 1 5 42 = Except.error (LoadError.keyError "Category") :=
  ⟨by decide, (load_column_and_label_behaviour fileNoCategory 1 5 42).1 (by decide)⟩

/-- C8: the loader maps categories by the fixed dict ham to 0 and spam
to 1: in any successfully labelled dataframe, every row whose category
cell is "spam" carries label 1 and every row whose category cell is
"ham" carries label 0. -/
theorem label_mapping_ham0_spam1 (f : CsvFile) (rows : List Row)
    (h : labelledRows f = Except.ok rows) :
    mapCategory "ham" = some 0 ∧ mapCategory "spam" = some 1 ∧
    ∀ r ∈ rows, (r.category = "spam" → r.label = some 1) ∧
      (r.category = "ham" → r.label = some 0) := by
  refine ⟨rfl, rfl, ?_⟩
  intro r hr
  have hl := labelledRows_label h r hr
  constructor
  · intro hc
    rw [hl, hc]
    rfl
  · intro hc
    rw [hl, hc]
    rfl

/-- C8 witness: the two example rows of the spec receive labels 1 and 0
respectively. -/
theorem label_mapping_witness :
    labelledRows fileExamples = Except.ok exampleRows ∧
    (mapCategory "ham" = some 0 ∧ mapCategory "spam" = some 1 ∧
     ∀ r ∈ exampleRows, (r.category = "spam" → r.label = some 1) ∧
       (r.category = "ham" → r.label = some 0)) :=
  ⟨by decide, label_mapping_ham0_spam1 fileExamples exampleRows (by decide)⟩

theorem dsOne_aligned : dsOne.aligned := by
  intro kv h
  simp only [dsOne, List.mem_cons, List.not_mem_nil, or_false] at h
  rcases h with rfl | rfl | rfl <;> rfl

/-- C5 counterexample: index -1 lies outside [0, size()) of a one-example
store, yet getitem does not raise an IndexError: it returns the last
example. -/
theorem getitem_negative_index_succeeds :
    dsOne.size = 1 ∧ ¬ ((0 : Int) ≤ -1) ∧
    dsOne.getitem (-1) =
      some ⟨[("input_ids", [101, 7592, 102]), ("token_type_ids", [0, 0, 0]),
             ("attention_mask", [1, 1, 1])], 0⟩ := by
  refine ⟨rfl, by decide, by decide⟩

/-- C5 (amended): under the construction invariant that every encoding
list has one entry per label, getitem raises IndexError exactly when the
index is outside [-size(), size()): a non-negative index must be below
size(), but a negative index down to -size() succeeds as well through
Python wrap-around; for an index inside [0, size()) getitem returns the
item holding one subscripted value per encoding key together with the
label at that index. -/
theorem getitem_range_characterisation {α : Type} (d : EmailDataset α)
    (hA : d.aligned) (i : Int) :
    (d.getitem i = none ↔ (i < -(d.size : Int) ∨ (d.size : Int) ≤ i)) ∧
    (∀ j : Nat, j < d.size → ∃ it, d.getitem (j : Int) = some it ∧
      it.fields.length = d.encodings.length ∧ d.labels.get? j = some it.labels_value) :=
  ⟨getitem_eq_none_iff hA, fun _ hj => getitem_pos_spec hA hj⟩

/-- C5 witness: the characterisation instantiated on a concrete store
and the out-of-range index 5. -/
theorem getitem_range_characterisation_witness :
    dsOne.aligned ∧
    ((dsOne.getitem 5 = none ↔ ((5 : Int) < -(dsOne.size : Int) ∨ (dsOne.size : Int) ≤ 5)) ∧
     (∀ j : Nat, j < dsOne.size → ∃ it, dsOne.getitem (j : Int) = some it ∧
       it.fields.length = dsOne.encodings.length ∧
       dsOne.labels.get? j = some it.labels_value)) :=
  ⟨dsOne_aligned, getitem_range_characterisation dsOne dsOne_aligned 5⟩

/-- C10: under the construction invariant, a negative index i with
-size() ≤ i < 0 does not raise: getitem succeeds and returns exactly the
item at position size() + i, inheriting Python negative-index semantics
from the underlying lists. -/
theorem getitem_negative_index_wraps {α : Type} (d : EmailDataset α)
    (hA : d.aligned) (i : Int) (h1 : -(d.size : Int) ≤ i) (h2 : i < 0) :
    (d.getitem i).isSome = true ∧ d.getitem i = d.getitem ((d.size : Int) + i) := by
  have hwrap : d.getitem i = d.getitem ((d.size : Int) + i) := by
    unfold EmailDataset.getitem
    simp only [EmailDataset.size]
    rw [collectFields_neg_wrap hA h1 h2, pyGet_neg_wrap h1 h2]
  refine ⟨?_, hwrap⟩
  have hnone := getitem_eq_none_iff hA (i := i)
  cases hg : d.getitem i with
  | none =>
    have := hnone.mp hg
    simp only [EmailDataset.size] at this h1 h2
    omega
  | some it => rfl

/-- C10 witness: getitem at -1 on a concrete one-example store succeeds
and agrees with getitem at position 0. -/
theorem getitem_negative_index_wraps_witness :
    dsOne.aligned ∧ -(dsOne.size : Int) ≤ -1 ∧ (-1 : Int) < 0 ∧
    ((dsOne.getitem (-1)).isSome = true ∧
     dsOne.getitem (-1) = dsOne.getitem ((dsOne.size : Int) + -1)) :=
  ⟨dsOne_aligned, by decide, by decide,
   getitem_negative_index_wraps dsOne dsOne_aligned (-1) (by decide) (by decide)⟩

/-- C2 counterexample: with padding set to True the batch call pads to
the longest sequence of the batch, not to max_length: a batch of the two
short messages "ab" and "c" yields token_ids of length 2, not 512. -/
theorem batch_encoding_not_fixed_length :
    ((batchEncode modelTok 0 512 ["ab", "c"]).get? 0).map (fun e => e.token_ids.length) = some 2 ∧
    (2 : Nat) ≠ 512 :=
  ⟨by decide, by decide⟩

/-- C2 (amended): every encoding of a batch has token_ids and
attention_mask of one common length, the longest truncated token length
of the batch; that common length is at most max_length L but is not L in
general. -/
theorem batch_encoding_uniform_length (tok : String → List Nat) (padId L : Nat)
    (msgs : List String) (i : Nat) (e : Encoding)
    (h : (batchEncode tok padId L msgs).get? i = some e) :
    e.token_ids.length = batchMaxLen tok L msgs ∧
    e.attention_mask.length = batchMaxLen tok L msgs ∧
    batchMaxLen tok L msgs ≤ L := by
  have hB : batchMaxLen tok L msgs ≤ L := by
    unfold batchMaxLen
    apply foldr_max_le
    intro x hx
    obtain ⟨m, hm2, rfl⟩ := List.mem_map.mp hx
    simp [truncateTo]
  simp only [batchEncode, List.get?_map] at h
  cases hm : msgs.get? i with
  | none =>
    rw [hm] at h
    cases h
  | some m =>
    rw [hm] at h
    simp only [Option.map_some'] at h
    have htle : (truncateTo L (tok m)).length ≤ batchMaxLen tok L msgs := by
      unfold batchMaxLen
      exact le_foldr_max (List.mem_map.mpr ⟨m, List.get?_mem hm, rfl⟩)
    cases h
    refine ⟨?_, ?_, hB⟩ <;> simp [padTo] <;> omega

/-- C2 witness: the uniform-length statement instantiated on a concrete
two-message batch, padded to common length 2. -/
theorem batch_encoding_uniform_length_witness :
    (batchEncode modelTok 0 512 ["ab", "c"]).get? 1 = some ⟨[99, 0], [1, 0]⟩ ∧
    ((⟨[99, 0], [1, 0]⟩ : Encoding).token_ids.length = batchMaxLen modelTok 512 ["ab", "c"] ∧
     (⟨[99, 0], [1, 0]⟩ : Encoding).attention_mask.length = batchMaxLen modelTok 512 ["ab", "c"] ∧
     batchMaxLen modelTok 512 ["ab", "c"] ≤ 512) :=
  ⟨by decide,
   batch_encoding_uniform_length modelTok 0 512 ["ab", "c"] 1 ⟨[99, 0], [1, 0]⟩ (by decide)⟩

/-- C3 counterexample: the encoding of "a" inside the batch
of "a" and "bb" is padded to the batch maximum length 2, while "a"
encoded alone receives no padding, so the two encodings differ. -/
theorem batch_single_encoding_differ :
    (batchEncode modelTok 0 512 ["a", "bb"]).get? 0 ≠ some (encodeSingle modelTok 0 512 "a") ∧
    encodeSingle modelTok 0 512 "a" = ⟨[97], [1]⟩ ∧
    (batchEncode modelTok 0 512 ["a", "bb"]).get? 0 = some ⟨[97, 0], [1, 0]⟩ :=
  ⟨by decide, by decide, by decide⟩

/-- C3 (amended): the batch encoding of a message is its single-message
encoding re-padded to the longest truncated length of the batch: token
ids and mask agree with the single-message path on all non-pad
positions, but the amount of padding depends on the other messages of
the batch, so the full encodings coincide only when the message attains
the batch maximum. -/
theorem batch_encoding_eq_single_padded (tok : String → List Nat) (padId L : Nat)
    (msgs : List String) (i : Nat) (m : String) (h : msgs.get? i = some m) :
    (batchEncode tok padId L msgs).get? i =
      some (padTo padId (batchMaxLen tok L msgs) ((encodeSingle tok padId L m).token_ids)) := by
  have hts : (encodeSingle tok padId L m).token_ids = truncateTo L (tok m) := by
    simp [encodeSingle, padTo]
  rw [hts]
  simp only [batchEncode, List.get?_map]
  rw [h]
  rfl

/-- C3 witness: the relation instantiated on the first message of a
concrete two-message batch. -/
theorem batch_encoding_eq_single_padded_witness :
    ["a", "bb"].get? 0 = some "a" ∧
    (batchEncode modelTok 0 512 ["a", "bb"]).get? 0 =
      some (padTo 0 (batchMaxLen modelTok 512 ["a", "bb"])
        ((encodeSingle modelTok 0 512 "a").token_ids)) :=
  ⟨by decide, batch_encoding_eq_single_padded modelTok 0 512 ["a", "bb"] 0 "a" (by decide)⟩

/-- C9: for a message whose tokenized length is below the configured
max_length, the attention mask of its batch encoding carries a 1 on
every real token position and then exactly one trailing 0 per padding
position inserted. -/
theorem attention_mask_ones_then_zeros (tok : String → List Nat) (padId L : Nat)
    (msgs : List String) (i : Nat) (m : String) (e : Encoding)
    (hm : msgs.get? i = some m) (hlt : (tok m).length < L)
    (he : (batchEncode tok padId L msgs).get? i = some e) :
    e.attention_mask =
      List.replicate (tok m).length 1 ++
        List.replicate (batchMaxLen tok L msgs - (tok m).length) 0 ∧
    (∀ j, j < (tok m).length → e.attention_mask.get? j = some 1) ∧
    (∀ j, (tok m).length ≤ j → j < e.attention_mask.length →
      e.attention_mask.get? j = some 0) := by
  have htr : truncateTo L (tok m) = tok m := List.take_of_length_le (le_of_lt hlt)
  simp only [batchEncode, List.get?_map, hm, Option.map_some'] at he
  cases he
  refine ⟨by simp [padTo, htr], ?_, ?_⟩
  · intro j hj
    simp only [padTo, htr]
    rw [List.get?_append (by simpa using hj)]
    exact get?_replicate_of_lt 1 hj
  · intro j hj1 hj2
    simp only [padTo, htr] at hj2 ⊢
    rw [List.get?_append_right (by simpa using hj1)]
    simp only [List.length_append, List.length_replicate] at hj2
    have hlt2 : j - (List.replicate (tok m).length (1 : Nat)).length <
        batchMaxLen tok L msgs - (tok m).length := by
      simp only [List.length_replicate]
      omega
    exact get?_replicate_of_lt 0 hlt2

/-- C9 witness: the mask shape instantiated on the first message of a
concrete two-message batch, with one real-token 1 and one padding 0. -/
theorem attention_mask_ones_then_zeros_witness :
    ["a", "bb"].get? 0 = some "a" ∧ (modelTok "a").length < 512 ∧
    (batchEncode modelTok 0 512 ["a", "bb"]).get? 0 = some ⟨[97, 0], [1, 0]⟩ ∧
    ((⟨[97, 0], [1, 0]⟩ : Encoding).attention_mask =
      List.replicate (modelTok "a").length 1 ++
        List.replicate (batchMaxLen modelTok 512 ["a", "bb"] - (modelTok "a").length) 0 ∧
     (∀ j, j < (modelTok "a").length →
       (⟨[97, 0], [1, 0]⟩ : Encoding).attention_mask.get? j = some 1) ∧
     (∀ j, (modelTok "a").length ≤ j →
       j < (⟨[97, 0], [1, 0]⟩ : Encoding).attention_mask.length →
       (⟨[97, 0], [1, 0]⟩ : Encoding).attention_mask.get? j = some 0)) :=
  ⟨by decide, by decide, by decide,
   attention_mask_ones_then_zeros modelTok 0 512 ["a", "bb"] 0 "a" ⟨[97, 0], [1, 0]⟩
     (by decide) (by decide) (by decide)⟩

/-- C6: a successful load yields train and test partitions whose sizes
sum exactly to the number of input rows, and no original row index lies
in both partitions. -/
theorem load_partition_sizes_disjoint (f : CsvFile) (num den seed : Nat)
    (tr te : List (Nat × Row)) (h : load f num den seed = Except.ok (tr, te)) :
    tr.length + te.length = f.rows.length ∧
    ∀ i, i ∈ tr.map Prod.fst → i ∉ te.map Prod.fst := by
  unfold load at h
  cases hr : labelledRows f with
  | error e =>
    rw [hr] at h
    cases h
  | ok rows =>
    rw [hr] at h
    have hsplit : trainTestSplit rows num den seed = (tr, te) := by
      cases h
      rfl
    simp only [trainTestSplit] at hsplit
    obtain ⟨htr, hte⟩ := Prod.mk.injEq .. |>.mp hsplit
    have hperm : List.Perm (shuffledIndices seed rows.length) (List.range rows.length) :=
      List.rotate_perm (List.range rows.length) (lcg seed)
    have hlt : ∀ i ∈ shuffledIndices seed rows.length, i < rows.length :=
      fun i hi => List.mem_range.mp (hperm.subset hi)
    have hnd : (shuffledIndices seed rows.length).Nodup :=
      hperm.symm.nodup (List.nodup_range rows.length)
    have hfst_tr : tr.map Prod.fst =
        (shuffledIndices seed rows.length).drop (testCount num den rows.length) := by
      rw [← htr]
      exact pickRows_map_fst fun i hi => hlt i (List.mem_of_mem_drop hi)
    have hfst_te : te.map Prod.fst =
        (shuffledIndices seed rows.length).take (testCount num den rows.length) := by
      rw [← hte]
      exact pickRows_map_fst fun i hi => hlt i (List.mem_of_mem_take hi)
    constructor
    · have h1 : tr.length = ((shuffledIndices seed rows.length).drop
          (testCount num den rows.length)).length := by
        rw [← hfst_tr, List.length_map]
      have h2 : te.length = ((shuffledIndices seed rows.length).take
          (testCount num den rows.length)).length := by
        rw [← hfst_te, List.length_map]
      have h3 : (shuffledIndices seed rows.length).length = rows.length := by
        simpa using hperm.length_eq
      have h4 : rows.length = f.rows.length := labelledRows_length hr
      rw [h1, h2, List.length_drop, List.length_take]
      omega
    · intro i hi hti
      have hnd2 : ((shuffledIndices seed rows.length).take (testCount num den rows.length) ++
          (shuffledIndices seed rows.length).drop (testCount num den rows.length)).Nodup := by
        rw [List.take_append_drop]
        exact hnd
      have hdisj := (List.nodup_append.mp hnd2).2.2
      rw [hfst_tr] at hi
      rw [hfst_te] at hti
      exact hdisj hti hi

/-- C6 witness: on a concrete two-row file, the two partitions hold one
row each, summing to the input row count, with disjoint row indices. -/
theorem load_partition_sizes_disjoint_witness :
    load fileTwo 1 5 42 =
      Except.ok ([(0, ⟨"ham", "a", some 0⟩)], [(1, ⟨"spam", "b", some 1⟩)]) ∧
    ([((0 : Nat), (⟨"ham", "a", some 0⟩ : Row))].length +
        [((1 : Nat), (⟨"spam", "b", some 1⟩ : Row))].length = fileTwo.rows.length ∧
     ∀ i, i ∈ [((0 : Nat), (⟨"ham", "a", some 0⟩ : Row))].map Prod.fst →
       i ∉ [((1 : Nat), (⟨"spam", "b", some 1⟩ : Row))].map Prod.fst) :=
  ⟨by decide,
   load_partition_sizes_disjoint fileTwo 1 5 42
     [((0 : Nat), (⟨"ham", "a", some 0⟩ : Row))]
     [((1 : Nat), (⟨"spam", "b", some 1⟩ : Row))] (by decide)⟩

end SpamHam
